import Mathlib

set_option linter.all false

/- Formal model of the reliable-session protocol server implemented in
   src/p07/src/main.rs.  Bytes are modelled as Nat and byte strings as
   List Nat.  Rust u64 values are modelled as Nat; theorems that depend on
   the machine width carry explicit bounds n < 2^64.  Fallible Rust code
   (anyhow::Result) is modelled with Option: Ok v becomes some v and any
   Err becomes none. -/

/-- The four wire message kinds (enum Message, main.rs lines 12-29). -/
inductive Message where
  | Connect (session : Nat)
  | Data (session : Nat) (pos : Nat) (data : List Nat)
  | Ack (session : Nat) (len : Nat)
  | Close (session : Nat)
  deriving DecidableEq, Repr

/-- Replace every occurrence of the single byte p by rep, scanning left to
    right.  Models bstr replace with a one-byte needle, as used by
    Message::serialize (main.rs lines 94-95) for the needles 92 (backslash)
    and 47 (slash). -/
def replOne (p : Nat) (rep : List Nat) : List Nat → List Nat
  | [] => []
  | c :: rest => (if c = p then rep else [c]) ++ replOne p rep rest

/-- Replace every occurrence of the two-byte needle p1,p2 by rep, leftmost
    first and non-overlapping.  Models bstr replace with a two-byte needle,
    as used by Message::parse (main.rs lines 67-76) for the needles 92,92
    and 92,47. -/
def replTwo (p1 p2 : Nat) (rep : List Nat) : List Nat → List Nat
  | [] => []
  | [c] => [c]
  | c1 :: c2 :: rest =>
    if c1 = p1 ∧ c2 = p2 then rep ++ replTwo p1 p2 rep rest
    else c1 :: replTwo p1 p2 rep (c2 :: rest)

/-- The escaping done by Message::serialize on a Data payload (main.rs
    lines 94-95): first every backslash 92 becomes 92,92, then every slash
    47 becomes 92,47. -/
def escape (d : List Nat) : List Nat :=
  replOne 47 [92, 47] (replOne 92 [92, 92] d)

/-- The unescaping done by Message::parse on a Data payload (main.rs lines
    75-76): first 92,92 collapses to 92, then 92,47 collapses to 47. -/
def unescape (d : List Nat) : List Nat :=
  replTwo 92 47 [47] (replTwo 92 92 [92] d)

/-- The escaping validity check of Message::parse (main.rs lines 67-74):
    delete every 92,92, then every 92,47; the payload is rejected when a
    bare backslash or slash remains. -/
def escValid (d : List Nat) : Bool :=
  let d1 := replTwo 92 92 [] d
  let d2 := replTwo 92 47 [] d1
  !(decide (92 ∈ d2) || decide (47 ∈ d2))

/-- A UTF-8 continuation byte (0x80-0xBF). -/
def isCont (c : Nat) : Bool := decide (128 ≤ c ∧ c ≤ 191)

/-- Strict UTF-8 validation of a byte string, fuelled so that the kernel
    can evaluate it (the fuel is always instantiated with the length of the
    list, which suffices because each step consumes at least one byte).
    Models the check done by std::str::from_utf8: overlong encodings,
    surrogates and code points above 0x10FFFF are rejected. -/
def utf8ValidF : Nat → List Nat → Bool
  | _, [] => true
  | 0, _ :: _ => false
  | fuel + 1, c :: r =>
    if c ≤ 127 then utf8ValidF fuel r
    else if 194 ≤ c ∧ c ≤ 223 then
      match r with
      | c1 :: r1 => isCont c1 && utf8ValidF fuel r1
      | [] => false
    else if 224 ≤ c ∧ c ≤ 239 then
      match r with
      | c1 :: c2 :: r2 =>
        (if c = 224 then decide (160 ≤ c1 ∧ c1 ≤ 191)
         else if c = 237 then decide (128 ≤ c1 ∧ c1 ≤ 159)
         else isCont c1) && isCont c2 && utf8ValidF fuel r2
      | _ => false
    else if 240 ≤ c ∧ c ≤ 244 then
      match r with
      | c1 :: c2 :: c3 :: r3 =>
        (if c = 240 then decide (144 ≤ c1 ∧ c1 ≤ 191)
         else if c = 244 then decide (128 ≤ c1 ∧ c1 ≤ 143)
         else isCont c1) && isCont c2 && isCont c3 && utf8ValidF fuel r3
      | _ => false
    else false

/-- std::str::from_utf8 succeeds exactly on valid UTF-8 byte strings. -/
def utf8Valid (l : List Nat) : Bool := utf8ValidF l.length l

/-- Little-endian decimal digits of n, fuelled (the fuel is always
    instantiated with n itself, which suffices since n / 10 < n for
    0 < n).  digLE n 0 = []. -/
def digLE : Nat → Nat → List Nat
  | 0, _ => []
  | fuel + 1, n => if n = 0 then [] else n % 10 :: digLE fuel (n / 10)

/-- The decimal ASCII representation of n produced by Rust's
    Display for u64 inside the format! calls of Message::serialize:
    most-significant digit first, no sign, no leading zeros, and "0" for
    zero. -/
def natToDec (n : Nat) : List Nat :=
  if n = 0 then [48] else ((digLE n n).reverse.map (fun d => d + 48))

/-- Strip one optional leading ASCII plus sign 43, as u64::from_str
    does. -/
def stripPlus : List Nat → List Nat
  | [] => []
  | c :: r => if c = 43 then r else c :: r

/-- The accumulator fold of u64::from_str over ASCII digit bytes. -/
def digitsVal (s : List Nat) : Nat := s.foldl (fun a c => 10 * a + (c - 48)) 0

/-- Model of str::parse::<u64> (u64::from_str): an optional leading plus
    sign, then one or more ASCII digits, with failure on overflow past
    2^64 - 1 (the per-step checked arithmetic of from_str fails exactly
    when the final value would be at least 2^64, since the accumulator is
    monotone). -/
def rustParseU64 (s : List Nat) : Option Nat :=
  let t := stripPlus s
  if t = [] then none
  else if t.all (fun c => decide (48 ≤ c ∧ c ≤ 57)) then
    if digitsVal t < 2 ^ 64 then some (digitsVal t) else none
  else none

/-- std::str::from_utf8 followed by str::parse::<u64>, the combination the
    parser applies to every numeric field. -/
def parseNum (s : List Nat) : Option Nat :=
  if utf8Valid s then rustParseU64 s else none

/-- The bytes of "/connect/". -/
def pfxConnect : List Nat := [47, 99, 111, 110, 110, 101, 99, 116, 47]

/-- The bytes of "/ack/". -/
def pfxAck : List Nat := [47, 97, 99, 107, 47]

/-- The bytes of "/close/". -/
def pfxClose : List Nat := [47, 99, 108, 111, 115, 101, 47]

/-- The bytes of "/data/". -/
def pfxData : List Nat := [47, 100, 97, 116, 97, 47]

/-- slice::strip_prefix: some remainder when p is an initial segment of l,
    none otherwise. -/
def stripPfx : List Nat → List Nat → Option (List Nat)
  | [], l => some l
  | _ :: _, [] => none
  | p :: ps, c :: cs => if c = p then stripPfx ps cs else none

/-- Iterator::position of the byte x in a byte string. -/
def idxOf (x : Nat) : List Nat → Option Nat
  | [] => none
  | c :: r => if c = x then some 0 else (idxOf x r).map (fun i => i + 1)

/-- str::split on a one-byte separator: always at least one part, the
    empty string yields one empty part. -/
def splitByte (sep : Nat) : List Nat → List (List Nat)
  | [] => [[]]
  | c :: r =>
    if c = sep then [] :: splitByte sep r
    else
      match splitByte sep r with
      | [] => [[c]]
      | h :: t => (c :: h) :: t

/-- The "/connect/SESSION/" branch of Message::parse (main.rs lines
    36-40): drop the final byte (error when the remainder is empty) and
    parse the rest as a u64. -/
def connectBody (s : List Nat) : Option Message :=
  if s.length = 0 then none
  else (parseNum (s.take (s.length - 1))).map (fun n => Message.Connect n)

/-- The "/close/SESSION/" branch of Message::parse (main.rs lines
    48-52). -/
def closeBody (s : List Nat) : Option Message :=
  if s.length = 0 then none
  else (parseNum (s.take (s.length - 1))).map (fun n => Message.Close n)

/-- The "/ack/SESSION/LENGTH/" branch of Message::parse (main.rs lines
    41-47): drop the final byte, require the remainder to be valid UTF-8,
    split on the slash 47 and u64-parse the first two parts, ignoring any
    further parts.  (Splitting the byte string on 47 agrees with
    str::split('/') because in valid UTF-8 the byte 47 occurs only as the
    character '/'.) -/
def ackBody (s : List Nat) : Option Message :=
  if s.length = 0 then none
  else
    let t := s.take (s.length - 1)
    if utf8Valid t then
      match splitByte 47 t with
      | p0 :: rest =>
        match rustParseU64 p0 with
        | some session =>
          match rest with
          | p1 :: _ => (rustParseU64 p1).map (fun l => Message.Ack session l)
          | [] => none
        | none => none
      | [] => none
    else none

/-- The "/data/SESSION/POS/ESCAPED/" branch of Message::parse (main.rs
    lines 53-81): locate the two numeric fields by the first two slashes,
    take everything before the final byte as the escaped payload, check
    escaping consistency and unescape.  When the remainder after the two
    numeric fields is empty the source computes s.len() - 1 on the usize 0
    and panics; that input is modelled as a parse failure. -/
def dataBody (s : List Nat) : Option Message :=
  match idxOf 47 s with
  | none => none
  | some i1 =>
    match parseNum (s.take i1) with
    | none => none
    | some session =>
      let s1 := s.drop (i1 + 1)
      match idxOf 47 s1 with
      | none => none
      | some i2 =>
        match parseNum (s1.take i2) with
        | none => none
        | some pos =>
          let s2 := s1.drop (i2 + 1)
          if s2.length = 0 then none
          else
            let d := s2.take (s2.length - 1)
            if escValid d then some (Message.Data session pos (unescape d))
            else none

/-- Message::parse (main.rs lines 32-85): requires a trailing slash, then
    tries the four known frame heads in source order. -/
def parse (b : List Nat) : Option Message :=
  if b.getLast? ≠ some 47 then none
  else
    match stripPfx pfxConnect b with
    | some s => connectBody s
    | none =>
      match stripPfx pfxAck b with
      | some s => ackBody s
      | none =>
        match stripPfx pfxClose b with
        | some s => closeBody s
        | none =>
          match stripPfx pfxData b with
          | some s => dataBody s
          | none => none

/-- Message::serialize (main.rs lines 87-108).  Connect, Ack and Close
    always succeed; Data escapes its payload and fails (source: the ?
    on std::str::from_utf8 inside format!) when the escaped payload is not
    valid UTF-8. -/
def serialize : Message → Option (List Nat)
  | Message.Connect session => some (pfxConnect ++ natToDec session ++ [47])
  | Message.Data session pos d =>
    let e := escape d
    if utf8Valid e then
      some (pfxData ++ natToDec session ++ [47] ++ natToDec pos ++ [47] ++ e ++ [47])
    else none
  | Message.Ack session len => some (pfxAck ++ natToDec session ++ [47] ++ natToDec len ++ [47])
  | Message.Close session => some (pfxClose ++ natToDec session ++ [47])

/-- Well-formedness of a frame value as produced by the Rust program: all
    u64 fields fit in 64 bits (payload bytes need no side condition, the
    escaping analysis never does). -/
def wfMsg : Message → Prop
  | Message.Connect s => s < 2 ^ 64
  | Message.Data s p _ => s < 2 ^ 64 ∧ p < 2 ^ 64
  | Message.Ack s l => s < 2 ^ 64 ∧ l < 2 ^ 64
  | Message.Close s => s < 2 ^ 64

/-- Per-session server state (struct SessionState, main.rs lines 111-120).
    chq models the contents of the unbounded async channel between the
    receive loop and the session's outbound task (field ch); outPos models
    the outbound task's local variable pos (main.rs line 244), the total
    number of payload bytes the task has emitted in Data frames. -/
@[ext]
structure Session where
  id : Nat
  addr : Nat
  data : List Nat
  full_lines : Nat
  chq : List (List Nat)
  ack : Nat
  pending : List Message
  should_close : Bool
  outPos : Nat
  deriving DecidableEq, Repr

/-- The session registry (HashMap<u64, SessionState>), modelled as an
    association list with at most one entry per id. -/
abbrev Registry := List (Nat × Session)

/-- HashMap::get / get_mut. -/
def lookupS : Registry → Nat → Option Session
  | [], _ => none
  | (k, s) :: r, k2 => if k2 = k then some s else lookupS r k2

/-- In-place mutation of the entry for an existing key (no effect when the
    key is absent, which never happens where the model uses it). -/
def updateS : Registry → Nat → Session → Registry
  | [], _, _ => []
  | (k, s) :: r, k2, s2 => if k2 = k then (k2, s2) :: r else (k, s) :: updateS r k2 s2

/-- HashMap entry insertion for a vacant key. -/
def insertS (r : Registry) (k : Nat) (s : Session) : Registry := (k, s) :: r

/-- Count of newline bytes, state.full_lines recomputation (main.rs line
    126). -/
def countNl (l : List Nat) : Nat := (l.filter (fun b => b = 10)).length

/-- Rust slice split on the newline byte (main.rs line 130). -/
def splitNl (l : List Nat) : List (List Nat) := splitByte 10 l

/-- SessionState::add (main.rs lines 123-158): append the new bytes,
    recount full lines, and when a new full line appeared or should_close
    is set, push onto the channel every newly finished segment, reversed,
    with a newline appended except at the very last split segment. -/
def addData (st : Session) (newData : List Nat) : Session :=
  let d := st.data ++ newData
  let old := st.full_lines
  let fl := countNl d
  let st1 := { st with data := d, full_lines := fl }
  if old < fl ∨ st1.should_close then
    let newLines := (splitNl d).drop old
    let idx := if st1.should_close then newLines.length else newLines.length - 1
    let sent := (newLines.take idx).enum.map
      (fun p => p.2.reverse ++ (if p.1 ≠ newLines.length - 1 then [10] else []))
    { st1 with chq := st1.chq ++ sent }
  else st1

/-- slice::chunks(512), fuelled for kernel evaluation (the fuel is always
    the length of the list; each step consumes at least one element). -/
def chunks512F : Nat → List Nat → List (List Nat)
  | _, [] => []
  | 0, _ :: _ => []
  | fuel + 1, c :: r => (c :: r).take 512 :: chunks512F fuel ((c :: r).drop 512)

/-- slice::chunks(512): maximal runs of 512 bytes; empty input gives no
    chunks. -/
def chunks512 (l : List Nat) : List (List Nat) := chunks512F l.length l

/-- The Data frames built by the outbound task's chunk loop (main.rs lines
    273-287): one frame per chunk, each carrying the running absolute
    position. -/
def dataFrames (sid : Nat) : Nat → List (List Nat) → List Message
  | _, [] => []
  | pos, c :: cs => Message.Data sid pos c :: dataFrames sid (pos + c.length) cs

/-- The final value of the outbound task's pos after the chunk loop. -/
def endPos : Nat → List (List Nat) → Nat
  | pos, [] => pos
  | pos, c :: cs => endPos (pos + c.length) cs

/-- The receive loop's dispatch on one successfully parsed datagram
    (main.rs lines 171-352).  Returns the new registry and the list of
    datagrams sent, as (destination address, frame) pairs. -/
def handleMsg (reg : Registry) (addr : Nat) : Message → Registry × List (Nat × Message)
  | Message.Ack session len =>
    match lookupS reg session with
    | none => (reg, [])
    | some st =>
      if len ≤ st.ack then (reg, [])
      else if len ≤ st.data.length then
        let newAck := max len st.ack
        let pend := st.pending.filter (fun m =>
          match m with
          | Message.Data _ pos d => decide (newAck < pos + d.length)
          | _ => false)
        let st2 := { st with ack := newAck, pending := pend }
        let out := if pend = [] ∧ st2.should_close = true then [(addr, Message.Close session)] else []
        (updateS reg session st2, out)
      else (reg, [(addr, Message.Close session)])
  | Message.Close session =>
    match lookupS reg session with
    | none => (reg, [(addr, Message.Close session)])
    | some st =>
      if st.ack = st.data.length then (reg, [(addr, Message.Close session)])
      else if st.should_close = true then (reg, [])
      else (updateS reg session (addData { st with should_close := true } []), [])
  | Message.Connect session =>
    match lookupS reg session with
    | some _ => (reg, [(addr, Message.Ack session 0)])
    | none =>
      (insertS reg session
        { id := session, addr := addr, data := [], full_lines := 0, chq := [],
          ack := 0, pending := [], should_close := false, outPos := 0 },
       [(addr, Message.Ack session 0)])
  | Message.Data session pos d =>
    match lookupS reg session with
    | none => (reg, [])
    | some st =>
      if st.should_close = true then (reg, [])
      else if st.data.length = pos then
        let st2 := addData st d
        (updateS reg session st2, [(st.addr, Message.Ack session st2.data.length)])
      else (reg, [(st.addr, Message.Ack session st.data.length)])

/-- One execution of the outbound task's channel-receive branch (main.rs
    lines 268-288) for session sid: pop the next application chunk off the
    channel, send one Data frame per 512-byte chunk (to the address
    recorded at connect time, which equals st.addr since the peer address
    is never mutated), append each frame to pending and advance pos. -/
def consumeStep (reg : Registry) (sid : Nat) : Registry × List (Nat × Message) :=
  match lookupS reg sid with
  | none => (reg, [])
  | some st =>
    match st.chq with
    | [] => (reg, [])
    | d :: rest =>
      let frames := dataFrames sid st.outPos (chunks512 d)
      let st2 := { st with
                   chq := rest,
                   pending := st.pending ++ frames,
                   outPos := endPos st.outPos (chunks512 d) }
      (updateS reg sid st2, frames.map (fun m => (st.addr, m)))

/-- One execution of the outbound task's retransmission tick (main.rs
    lines 253-267): resend every pending frame to the recorded peer
    address; no state changes. -/
def tickStep (reg : Registry) (sid : Nat) : Registry × List (Nat × Message) :=
  match lookupS reg sid with
  | none => (reg, [])
  | some st => (reg, st.pending.map (fun m => (st.addr, m)))

/-- The events that mutate or read the shared registry: a successfully
    parsed datagram dispatched by the receive loop, one channel consumption
    by a session's outbound task, or one retransmission tick.  (A datagram
    that fails to parse is logged and dropped, main.rs line 172, leaving
    the registry untouched.) -/
inductive Event where
  | recv (addr : Nat) (msg : Message)
  | consume (sid : Nat)
  | tick (sid : Nat)
  deriving Repr

/-- One interleaving step of the server. -/
def step (reg : Registry) : Event → Registry × List (Nat × Message)
  | Event.recv addr m => handleMsg reg addr m
  | Event.consume sid => consumeStep reg sid
  | Event.tick sid => tickStep reg sid

/-- Run a sequence of events from a registry, accumulating all sent
    datagrams in order. -/
def runSteps (reg : Registry) : List Event → Registry × List (Nat × Message)
  | [] => (reg, [])
  | e :: es =>
    let p := step reg e
    let q := runSteps p.1 es
    (q.1, p.2 ++ q.2)

/-- The receive loop body on a raw datagram (main.rs lines 168-172):
    parse, drop on failure, dispatch on success. -/
def recvDatagram (reg : Registry) (addr : Nat) (bytes : List Nat) :
    Registry × List (Nat × Message) :=
  match parse bytes with
  | some m => handleMsg reg addr m
  | none => (reg, [])

/-- The lines forwarded to the application channel by one in-order Data
    arrival when should_close is false, described from the amended claim
    C4: the input lines completed by the new bytes (the split segments
    gained beyond the old full-line count, excluding the trailing
    unfinished segment), each reversed and newline-terminated. -/
def completedLines (oldCount : Nat) (full : List Nat) : List (List Nat) :=
  let segs := (splitNl full).drop oldCount
  (segs.take (segs.length - 1)).map (fun l => l.reverse ++ [10])

/-- The per-byte token emitted by escape: analysis artefact used to reason
    about the two chained replacements. -/
def escTok (c : Nat) : List Nat :=
  if c = 92 then [92, 92] else if c = 47 then [92, 47] else [c]

/-- Analysis artefact: the escaped string after the first unescaping pass
    (92,92 collapsed to 92), computed directly from the raw payload. -/
def esc1 : List Nat → List Nat
  | [] => []
  | c :: l => (if c = 47 then [92, 47] else [c]) ++ esc1 l

/-- Analysis artefact: the escaped string after the first deletion pass of
    the validity check (92,92 deleted), computed from the raw payload. -/
def esc0 : List Nat → List Nat
  | [] => []
  | c :: l => (if c = 47 then [92, 47] else if c = 92 then [] else [c]) ++ esc0 l

/-- Event trace used to reach a state with should_close set and all
    outbound data acknowledged: connect, one full line in, the outbound
    task sends the reversed line, peer closes (deferred), peer acks the
    reversed line. -/
def c2Trace : List Event :=
  [Event.recv 7 (Message.Connect 1), Event.recv 7 (Message.Data 1 0 [97, 10]),
   Event.consume 1, Event.recv 7 (Message.Close 1), Event.recv 7 (Message.Ack 1 2)]

/-- Event trace prefix reaching a session that has received 3 inbound
    bytes while its outbound task has sent nothing (outPos = 0). -/
def c3TracePre : List Event :=
  [Event.recv 7 (Message.Connect 1), Event.recv 7 (Message.Data 1 0 [97, 98, 10])]

/-- Event trace delivering an in-order Data payload that contains no
    newline. -/
def c4Trace : List Event :=
  [Event.recv 7 (Message.Connect 1), Event.recv 7 (Message.Data 1 0 [104, 101, 108])]

/-! Escaping lemmas: the two chained replacements of Message::parse invert
    the two chained replacements of Message::serialize, and the validity
    check accepts every properly escaped payload. -/

theorem replOne_append (p : Nat) (rep a b : List Nat) :
    replOne p rep (a ++ b) = replOne p rep a ++ replOne p rep b := by
  induction a with
  | nil => simp [replOne]
  | cons c t ih => simp [replOne, ih]

theorem escape_cons (c : Nat) (l : List Nat) :
    escape (c :: l) = escTok c ++ escape l := by
  by_cases h1 : c = 92
  · subst h1; simp [escape, escTok, replOne, replOne_append]
  · by_cases h2 : c = 47
    · subst h2; simp [escape, escTok, replOne, replOne_append, h1]
    · simp [escape, escTok, replOne, replOne_append, h1, h2]

theorem replTwo_cons_ne (p1 p2 : Nat) (rep : List Nat) (c : Nat) (t : List Nat)
    (h : c ≠ p1) : replTwo p1 p2 rep (c :: t) = c :: replTwo p1 p2 rep t := by
  cases t with
  | nil => simp [replTwo]
  | cons d t2 => simp [replTwo, h]

theorem replTwo_collapse (l : List Nat) : replTwo 92 92 [92] (escape l) = esc1 l := by
  induction l with
  | nil => rfl
  | cons c t ih =>
    rw [escape_cons]
    by_cases h1 : c = 92
    · subst h1; simp [escTok, replTwo, esc1, ih]
    · by_cases h2 : c = 47
      · subst h2
        simp only [escTok, List.cons_append, List.nil_append]
        norm_num [replTwo]
        rw [replTwo_cons_ne 92 92 [92] 47 (escape t) (by norm_num)]
        simp [esc1, ih]
      · simp only [escTok, h1, h2, if_false, List.cons_append, List.nil_append]
        rw [replTwo_cons_ne 92 92 [92] c (escape t) h1]
        simp [esc1, h2, ih]

theorem esc1_head_ne (t : List Nat) (h : Nat) (r : List Nat)
    (he : esc1 t = h :: r) : h ≠ 47 := by
  cases t with
  | nil => simp [esc1] at he
  | cons d t2 =>
    by_cases hd : d = 47
    · subst hd; simp [esc1] at he; omega
    · simp [esc1, hd] at he; omega

theorem replTwo_esc1 (l : List Nat) : replTwo 92 47 [47] (esc1 l) = l := by
  induction l with
  | nil => rfl
  | cons c t ih =>
    by_cases h2 : c = 47
    · subst h2; simp [esc1, replTwo, ih]
    · by_cases h1 : c = 92
      · subst h1
        simp only [esc1, if_neg (by norm_num : ¬(92 : Nat) = 47), List.cons_append,
          List.nil_append]
        cases hE : esc1 t with
        | nil =>
          rw [hE] at ih
          simp only [replTwo] at ih
          subst ih
          simp [replTwo]
        | cons h r =>
          have hne := esc1_head_ne t h r hE
          rw [hE] at ih
          simp [replTwo, hne, ih]
      · simp only [esc1, if_neg h2, List.cons_append, List.nil_append]
        rw [replTwo_cons_ne 92 47 [47] c (esc1 t) h1, ih]

theorem unescape_escape (l : List Nat) : unescape (escape l) = l := by
  unfold unescape; rw [replTwo_collapse, replTwo_esc1]

theorem replTwo_del (l : List Nat) : replTwo 92 92 [] (escape l) = esc0 l := by
  induction l with
  | nil => rfl
  | cons c t ih =>
    rw [escape_cons]
    by_cases h1 : c = 92
    · subst h1; simp [escTok, replTwo, esc0, ih]
    · by_cases h2 : c = 47
      · subst h2
        simp only [escTok, List.cons_append, List.nil_append]
        norm_num [replTwo]
        rw [replTwo_cons_ne 92 92 [] 47 (escape t) (by norm_num)]
        simp [esc0, ih]
      · simp only [escTok, h1, h2, if_false, List.cons_append, List.nil_append]
        rw [replTwo_cons_ne 92 92 [] c (escape t) h1]
        simp [esc0, h2, h1, ih]

theorem esc0_head_ne (t : List Nat) : ∀ h r, esc0 t = h :: r → h ≠ 47 := by
  induction t with
  | nil => intro h r he; simp [esc0] at he
  | cons d t2 ih =>
    intro h r he
    by_cases hd : d = 47
    · subst hd; simp [esc0] at he; omega
    · by_cases hd2 : d = 92
      · subst hd2
        simp [esc0, if_neg (by norm_num : ¬(92 : Nat) = 47)] at he
        exact ih h r he
      · simp [esc0, hd, hd2] at he; omega

theorem replTwo_esc0 (l : List Nat) :
    replTwo 92 47 [] (esc0 l) = l.filter (fun c => decide (c ≠ 92 ∧ c ≠ 47)) := by
  induction l with
  | nil => rfl
  | cons c t ih =>
    by_cases h2 : c = 47
    · subst h2; simp [esc0, replTwo, List.filter, ih]
    · by_cases h1 : c = 92
      · subst h1
        simp only [esc0, if_neg (by norm_num : ¬(92 : Nat) = 47), ite_true,
          List.nil_append]
        rw [ih]
        simp [List.filter]
      · simp only [esc0, if_neg h2, if_neg h1, List.cons_append, List.nil_append]
        rw [replTwo_cons_ne 92 47 [] c (esc0 t) h1, ih]
        simp [List.filter, h1, h2]

theorem escValid_escape (d : List Nat) : escValid (escape d) = true := by
  simp only [escValid, replTwo_del, replTwo_esc0]
  simp [List.mem_filter]

/-! Decimal representation lemmas: Rust's Display output for a u64 parses
    back through u64::from_str to the same value. -/

theorem digLE_lt10 : ∀ fuel n d, d ∈ digLE fuel n → d < 10 := by
  intro fuel
  induction fuel with
  | zero => intro n d h; simp [digLE] at h
  | succ f ih =>
    intro n d h
    by_cases h0 : n = 0
    · simp [digLE, h0] at h
    · simp [digLE, h0] at h
      rcases h with h | h
      · subst h; exact Nat.mod_lt n (by norm_num)
      · exact ih (n / 10) d h

theorem natToDec_bounds (n : Nat) : ∀ c ∈ natToDec n, 48 ≤ c ∧ c ≤ 57 := by
  intro c hc
  unfold natToDec at hc
  by_cases h0 : n = 0
  · simp [h0] at hc; omega
  · simp [h0] at hc
    rcases hc with ⟨d, hd, rfl⟩
    have := digLE_lt10 n n d hd
    omega

theorem digLE_ne_nil (n : Nat) (h : n ≠ 0) : digLE n n ≠ [] := by
  cases n with
  | zero => exact absurd rfl h
  | succ m => simp [digLE]

theorem natToDec_ne_nil (n : Nat) : natToDec n ≠ [] := by
  unfold natToDec
  by_cases h0 : n = 0
  · simp [h0]
  · simp [h0]
    exact digLE_ne_nil n h0

theorem digLE_len : ∀ fuel n k, n ≤ fuel → n < 10 ^ k → (digLE fuel n).length ≤ k := by
  intro fuel
  induction fuel with
  | zero => intro n k _ _; simp [digLE]
  | succ f ih =>
    intro n k hle hk
    by_cases h0 : n = 0
    · simp [digLE, h0]
    · have hk1 : 1 ≤ k := by
        by_contra hcon
        have : k = 0 := by omega
        subst this
        simp at hk
        omega
      have hdiv : n / 10 ≤ f := by
        have := Nat.div_lt_self (Nat.pos_of_ne_zero h0) (by norm_num : (1:Nat) < 10)
        omega
      have hdk : n / 10 < 10 ^ (k - 1) := by
        have h10 : n < 10 ^ (k - 1) * 10 := by
          have hpow : 10 ^ k = 10 ^ (k - 1) * 10 := by
            conv_lhs => rw [show k = (k - 1) + 1 by omega]
            rw [pow_succ]
          omega
        exact (Nat.div_lt_iff_lt_mul (by norm_num)).mpr h10
      have hlen := ih (n / 10) (k - 1) hdiv hdk
      simp [digLE, h0]
      omega

theorem digLE_foldl : ∀ fuel n a, n ≤ fuel →
    ((digLE fuel n).reverse.map (fun d => d + 48)).foldl (fun x c => 10 * x + (c - 48)) a
      = a * 10 ^ (digLE fuel n).length + n := by
  intro fuel
  induction fuel with
  | zero =>
    intro n a h
    have : n = 0 := by omega
    subst this
    simp [digLE]
  | succ f ih =>
    intro n a h
    by_cases h0 : n = 0
    · subst h0; simp [digLE]
    · have hdiv : n / 10 ≤ f := by
        have := Nat.div_lt_self (Nat.pos_of_ne_zero h0) (by norm_num : (1:Nat) < 10)
        omega
      have heq : digLE (f + 1) n = n % 10 :: digLE f (n / 10) := by simp [digLE, h0]
      rw [heq]
      simp only [List.reverse_cons, List.map_append, List.map_cons, List.map_nil,
        List.foldl_append, List.foldl_cons, List.foldl_nil, List.length_cons]
      rw [ih (n / 10) a hdiv]
      have hmod : n % 10 + 48 - 48 = n % 10 := by omega
      rw [hmod, pow_succ]
      have hdm := Nat.div_add_mod n 10
      calc 10 * (a * 10 ^ (digLE f (n / 10)).length + n / 10) + n % 10
      _ = a * (10 ^ (digLE f (n / 10)).length * 10) + (10 * (n / 10) + n % 10) := by ring
      _ = a * (10 ^ (digLE f (n / 10)).length * 10) + n := by rw [hdm]

theorem stripPlus_of_ge48 (l : List Nat) (h : ∀ c ∈ l, 48 ≤ c) : stripPlus l = l := by
  cases l with
  | nil => rfl
  | cons c r =>
    have : 48 ≤ c := h c (List.mem_cons_self c r)
    simp [stripPlus]
    omega

theorem digitsVal_natToDec (n : Nat) : digitsVal (natToDec n) = n := by
  unfold digitsVal natToDec
  by_cases h0 : n = 0
  · simp [h0]
  · simp only [h0, if_false]
    rw [digLE_foldl n n 0 (le_refl n)]
    simp

theorem rustParseU64_natToDec (n : Nat) (h : n < 2 ^ 64) :
    rustParseU64 (natToDec n) = some n := by
  have hb := natToDec_bounds n
  have hsp : stripPlus (natToDec n) = natToDec n :=
    stripPlus_of_ge48 _ (fun c hc => (hb c hc).1)
  have hne := natToDec_ne_nil n
  have hval := digitsVal_natToDec n
  unfold rustParseU64
  simp only [hsp, hne, if_false, hval]
  have hall : (natToDec n).all (fun c => decide (48 ≤ c ∧ c ≤ 57)) = true := by
    rw [List.all_eq_true]
    intro c hc
    exact decide_eq_true (hb c hc)
  simp [hall]
  exact ⟨hb, h⟩

/-! UTF-8 lemmas: every all-ASCII byte string is valid UTF-8. -/

theorem utf8ValidF_ascii : ∀ fuel (l : List Nat), l.length ≤ fuel →
    (∀ c ∈ l, c < 128) → utf8ValidF fuel l = true := by
  intro fuel
  induction fuel with
  | zero =>
    intro l hlen _
    cases l with
    | nil => rfl
    | cons c r => simp at hlen
  | succ f ih =>
    intro l hlen hc
    cases l with
    | nil => rfl
    | cons c r =>
      have h1 : c < 128 := hc c (List.mem_cons_self c r)
      have h2 : c ≤ 127 := by omega
      simp only [utf8ValidF, h2, if_true]
      exact ih r (by simp at hlen; omega) (fun d hd => hc d (List.mem_cons_of_mem c hd))

theorem utf8Valid_ascii (l : List Nat) (h : ∀ c ∈ l, c < 128) : utf8Valid l = true :=
  utf8ValidF_ascii l.length l (le_refl _) h

theorem parseNum_natToDec (n : Nat) (h : n < 2 ^ 64) : parseNum (natToDec n) = some n := by
  unfold parseNum
  have hu : utf8Valid (natToDec n) = true := by
    apply utf8Valid_ascii
    intro c hc
    have := natToDec_bounds n c hc
    omega
  simp [hu, rustParseU64_natToDec n h]

/-! Structural lemmas about the parser's helpers. -/

theorem stripPfx_append : ∀ (p r : List Nat), stripPfx p (p ++ r) = some r := by
  intro p
  induction p with
  | nil => intro r; rfl
  | cons c t ih => intro r; simp [stripPfx, ih]

theorem idxOf_append (x : Nat) : ∀ (a : List Nat), (∀ c ∈ a, c ≠ x) →
    ∀ b, idxOf x (a ++ x :: b) = some a.length := by
  intro a
  induction a with
  | nil => intro _ b; simp [idxOf]
  | cons c t ih =>
    intro h b
    have hc : c ≠ x := h c (List.mem_cons_self c t)
    simp only [List.cons_append, idxOf, hc, if_false, List.append_eq]
    rw [ih (fun d hd => h d (List.mem_cons_of_mem c hd)) b]
    rfl

theorem splitByte_no_sep (sep : Nat) : ∀ (a : List Nat), (∀ c ∈ a, c ≠ sep) →
    splitByte sep a = [a] := by
  intro a
  induction a with
  | nil => intro _; rfl
  | cons c t ih =>
    intro h
    have hc : c ≠ sep := h c (List.mem_cons_self c t)
    rw [splitByte]
    simp only [hc, if_false]
    rw [ih (fun d hd => h d (List.mem_cons_of_mem c hd))]

theorem splitByte_append_sep (sep : Nat) : ∀ (a : List Nat), (∀ c ∈ a, c ≠ sep) →
    ∀ b, splitByte sep (a ++ sep :: b) = a :: splitByte sep b := by
  intro a
  induction a with
  | nil => intro _ b; simp [splitByte]
  | cons c t ih =>
    intro h b
    have hc : c ≠ sep := h c (List.mem_cons_self c t)
    simp only [List.cons_append]
    rw [splitByte]
    simp only [hc, if_false]
    rw [ih (fun d hd => h d (List.mem_cons_of_mem c hd)) b]

theorem splitByte_ne_nil (sep : Nat) : ∀ l, splitByte sep l ≠ [] := by
  intro l
  induction l with
  | nil => simp [splitByte]
  | cons c t ih =>
    rw [splitByte]
    by_cases hc : c = sep
    · simp [hc]
    · simp only [hc, if_false]
      cases hsp : splitByte sep t with
      | nil => simp
      | cons h t2 => simp

theorem splitByte_length (sep : Nat) : ∀ l,
    (splitByte sep l).length = (l.filter (fun c => c = sep)).length + 1 := by
  intro l
  induction l with
  | nil => simp [splitByte]
  | cons c t ih =>
    rw [splitByte]
    by_cases hc : c = sep
    · simp [hc, List.filter, ih]
    · simp only [hc, if_false]
      cases hsp : splitByte sep t with
      | nil => exact absurd hsp (splitByte_ne_nil sep t)
      | cons h t2 =>
        rw [hsp] at ih
        simp [List.filter, hc] at ih ⊢
        omega

theorem natToDec_ne_47 (n : Nat) : ∀ c ∈ natToDec n, c ≠ 47 := by
  intro c hc
  have := natToDec_bounds n c hc
  omega

theorem natToDec_ascii (n : Nat) : ∀ c ∈ natToDec n, c < 128 := by
  intro c hc
  have := natToDec_bounds n c hc
  omega

theorem countNl_append (a b : List Nat) : countNl (a ++ b) = countNl a + countNl b := by
  simp [countNl, List.filter_append]

theorem splitNl_length (l : List Nat) : (splitNl l).length = countNl l + 1 := by
  simp [splitNl, countNl, splitByte_length]

/-! Reduction of parse to its four branch bodies, and parse of each
    serialized frame shape. -/

theorem parse_eq_connectBody (b s : List Nat) (hlast : b.getLast? = some 47)
    (h : stripPfx pfxConnect b = some s) : parse b = connectBody s := by
  unfold parse
  rw [hlast, h]
  simp

theorem parse_eq_ackBody (b s : List Nat) (hlast : b.getLast? = some 47)
    (h1 : stripPfx pfxConnect b = none)
    (h : stripPfx pfxAck b = some s) : parse b = ackBody s := by
  unfold parse
  rw [hlast, h1, h]
  simp

theorem parse_ser_connect (n : Nat) (h : n < 2 ^ 64) :
    parse (pfxConnect ++ natToDec n ++ [47]) = some (Message.Connect n) := by
  have hlast : (pfxConnect ++ natToDec n ++ [47]).getLast? = some 47 :=
    List.getLast?_concat _
  rw [parse_eq_connectBody _ (natToDec n ++ [47]) hlast
    (by rw [List.append_assoc]; exact stripPfx_append _ _)]
  unfold connectBody
  simp only [List.length_append, List.length_cons, List.length_nil, Nat.add_sub_cancel]
  rw [List.take_left]
  rw [parseNum_natToDec n h]
  rfl

theorem parse_eq_closeBody (b s : List Nat) (hlast : b.getLast? = some 47)
    (h1 : stripPfx pfxConnect b = none) (h2 : stripPfx pfxAck b = none)
    (h : stripPfx pfxClose b = some s) : parse b = closeBody s := by
  unfold parse
  rw [hlast, h1, h2, h]
  simp

theorem parse_eq_dataBody (b s : List Nat) (hlast : b.getLast? = some 47)
    (h1 : stripPfx pfxConnect b = none) (h2 : stripPfx pfxAck b = none)
    (h3 : stripPfx pfxClose b = none)
    (h : stripPfx pfxData b = some s) : parse b = dataBody s := by
  unfold parse
  rw [hlast, h1, h2, h3, h]
  simp


theorem take_concat_pred (Y : List Nat) (x : Nat) :
    (Y ++ [x]).take ((Y ++ [x]).length - 1) = Y := by
  simp only [List.length_append, List.length_cons, List.length_nil, Nat.add_sub_cancel]
  exact List.take_left Y [x]

theorem parse_ser_ack (s l : Nat) (hs : s < 2 ^ 64) (hl : l < 2 ^ 64) :
    parse (pfxAck ++ natToDec s ++ [47] ++ natToDec l ++ [47]) = some (Message.Ack s l) := by
  have hY : pfxAck ++ natToDec s ++ [47] ++ natToDec l ++ [47]
      = pfxAck ++ ((natToDec s ++ 47 :: natToDec l) ++ [47]) := by
    simp [List.append_assoc]
  have hlast : (pfxAck ++ natToDec s ++ [47] ++ natToDec l ++ [47]).getLast? = some 47 :=
    List.getLast?_concat _
  have h1 : stripPfx pfxConnect (pfxAck ++ natToDec s ++ [47] ++ natToDec l ++ [47]) = none := by
    rw [hY]
    simp [pfxConnect, pfxAck, stripPfx]
  rw [parse_eq_ackBody _ ((natToDec s ++ 47 :: natToDec l) ++ [47]) hlast h1
    (by rw [hY]; exact stripPfx_append _ _)]
  unfold ackBody
  rw [take_concat_pred]
  simp only [List.length_append, List.length_cons, List.length_nil]
  have hu : utf8Valid (natToDec s ++ 47 :: natToDec l) = true := by
    apply utf8Valid_ascii
    intro c hc
    rcases List.mem_append.mp hc with hc1 | hc2
    · exact natToDec_ascii s c hc1
    · rcases List.mem_cons.mp hc2 with hc3 | hc4
      · omega
      · exact natToDec_ascii l c hc4
  rw [hu]
  rw [splitByte_append_sep 47 (natToDec s) (natToDec_ne_47 s) (natToDec l)]
  rw [splitByte_no_sep 47 (natToDec l) (natToDec_ne_47 l)]
  simp only [if_true]
  rw [rustParseU64_natToDec s hs, rustParseU64_natToDec l hl]
  simp

theorem drop_append_cons (a : List Nat) (x : Nat) (b : List Nat) :
    (a ++ x :: b).drop (a.length + 1) = b := by
  have h : a ++ x :: b = (a ++ [x]) ++ b := by simp
  have hl : a.length + 1 = (a ++ [x]).length := by simp
  rw [h, hl, List.drop_left]

theorem parse_ser_close (n : Nat) (h : n < 2 ^ 64) :
    parse (pfxClose ++ natToDec n ++ [47]) = some (Message.Close n) := by
  have hY : pfxClose ++ natToDec n ++ [47] = pfxClose ++ (natToDec n ++ [47]) := by
    simp [List.append_assoc]
  have hlast : (pfxClose ++ natToDec n ++ [47]).getLast? = some 47 :=
    List.getLast?_concat _
  have h1 : stripPfx pfxConnect (pfxClose ++ natToDec n ++ [47]) = none := by
    rw [hY]; simp [pfxConnect, pfxClose, stripPfx]
  have h2 : stripPfx pfxAck (pfxClose ++ natToDec n ++ [47]) = none := by
    rw [hY]; simp [pfxAck, pfxClose, stripPfx]
  rw [parse_eq_closeBody _ (natToDec n ++ [47]) hlast h1 h2
    (by rw [hY]; exact stripPfx_append _ _)]
  unfold closeBody
  simp only [List.length_append, List.length_cons, List.length_nil, Nat.add_sub_cancel]
  rw [List.take_left]
  rw [parseNum_natToDec n h]
  rfl

theorem parse_ser_data (s p : Nat) (d : List Nat) (hs : s < 2 ^ 64) (hp : p < 2 ^ 64)
    (hue : utf8Valid (escape d) = true) :
    parse (pfxData ++ natToDec s ++ [47] ++ natToDec p ++ [47] ++ escape d ++ [47])
      = some (Message.Data s p d) := by
  have hY : pfxData ++ natToDec s ++ [47] ++ natToDec p ++ [47] ++ escape d ++ [47]
      = pfxData ++ (natToDec s ++ 47 :: (natToDec p ++ 47 :: (escape d ++ [47]))) := by
    simp [List.append_assoc]
  have hlast : (pfxData ++ natToDec s ++ [47] ++ natToDec p ++ [47] ++ escape d ++ [47]).getLast?
      = some 47 := List.getLast?_concat _
  have h1 : stripPfx pfxConnect (pfxData ++ natToDec s ++ [47] ++ natToDec p ++ [47] ++ escape d ++ [47]) = none := by
    rw [hY]; simp [pfxConnect, pfxData, stripPfx]
  have h2 : stripPfx pfxAck (pfxData ++ natToDec s ++ [47] ++ natToDec p ++ [47] ++ escape d ++ [47]) = none := by
    rw [hY]; simp [pfxAck, pfxData, stripPfx]
  have h3 : stripPfx pfxClose (pfxData ++ natToDec s ++ [47] ++ natToDec p ++ [47] ++ escape d ++ [47]) = none := by
    rw [hY]; simp [pfxClose, pfxData, stripPfx]
  rw [parse_eq_dataBody _ (natToDec s ++ 47 :: (natToDec p ++ 47 :: (escape d ++ [47])))
    hlast h1 h2 h3 (by rw [hY]; exact stripPfx_append _ _)]
  unfold dataBody
  simp [idxOf_append 47 (natToDec s) (natToDec_ne_47 s),
    idxOf_append 47 (natToDec p) (natToDec_ne_47 p),
    List.take_left, drop_append_cons, parseNum_natToDec s hs, parseNum_natToDec p hp,
    take_concat_pred, escValid_escape, unescape_escape]

/-- Counterexample to claim C1: the wire string "/ack/1/2/3/" (bytes
    below) is accepted by Message::parse, which ignores the extra field
    and yields Ack 1 2; re-serializing produces "/ack/1/2/", not the
    original string.  So encode is not a left inverse of decode on all
    accepted wire strings. -/
theorem C1_counterexample :
    parse [47, 97, 99, 107, 47, 49, 47, 50, 47, 51, 47] = some (Message.Ack 1 2) ∧
    serialize (Message.Ack 1 2) = some [47, 97, 99, 107, 47, 49, 47, 50, 47] ∧
    [47, 97, 99, 107, 47, 49, 47, 50, 47] ≠ [47, 97, 99, 107, 47, 49, 47, 50, 47, 51, 47] := by
  decide

/-- Claim C1 (amended): for every frame value with u64-representable
    numeric fields whose serialization succeeds, parsing the serialized
    bytes yields the frame back (decode of encode is the identity).  The
    converse direction of the original claim fails: the parser also
    accepts non-canonical wire strings (extra fields, leading zeros, plus
    signs) whose re-serialization differs from the input, so
    encode of decode is the identity only on the canonical wire strings
    that encode itself produces. -/
theorem C1_theorem (f : Message) (w : List Nat) (hwf : wfMsg f)
    (hser : serialize f = some w) : parse w = some f := by
  cases f with
  | Connect n =>
    simp only [wfMsg] at hwf
    simp only [serialize] at hser
    injection hser with hw
    subst hw
    exact parse_ser_connect n hwf
  | Data s p d =>
    simp only [wfMsg] at hwf
    simp only [serialize] at hser
    by_cases hu : utf8Valid (escape d) = true
    · rw [if_pos hu] at hser
      injection hser with hw
      subst hw
      exact parse_ser_data s p d hwf.1 hwf.2 hu
    · rw [if_neg hu] at hser
      exact absurd hser (by simp)
  | Ack s l =>
    simp only [wfMsg] at hwf
    simp only [serialize] at hser
    injection hser with hw
    subst hw
    exact parse_ser_ack s l hwf.1 hwf.2
  | Close n =>
    simp only [wfMsg] at hwf
    simp only [serialize] at hser
    injection hser with hw
    subst hw
    exact parse_ser_close n hwf

/-- Witness for the amended claim C1 at the concrete frame Ack 1 2. -/
theorem C1_witness :
    wfMsg (Message.Ack 1 2) ∧
    serialize (Message.Ack 1 2) = some [47, 97, 99, 107, 47, 49, 47, 50, 47] ∧
    parse [47, 97, 99, 107, 47, 49, 47, 50, 47] = some (Message.Ack 1 2) :=
  ⟨by constructor <;> decide, by decide,
   C1_theorem (Message.Ack 1 2) [47, 97, 99, 107, 47, 49, 47, 50, 47]
     (by constructor <;> decide) (by decide)⟩

/-! Registry lemmas. -/

theorem lookupS_update_self : ∀ (reg : Registry) (k : Nat) (s0 s : Session),
    lookupS reg k = some s0 → lookupS (updateS reg k s) k = some s := by
  intro reg
  induction reg with
  | nil => intro k s0 s h; simp [lookupS] at h
  | cons e r ih =>
    intro k s0 s h
    obtain ⟨ek, es⟩ := e
    by_cases hk : k = ek
    · subst hk
      simp [updateS, lookupS]
    · simp [lookupS, hk] at h
      simp [updateS, lookupS, hk]
      exact ih k s0 s h

theorem lookupS_update_ne (k2 k : Nat) (s : Session) (hne : k2 ≠ k) :
    ∀ (reg : Registry), lookupS (updateS reg k s) k2 = lookupS reg k2 := by
  intro reg
  induction reg with
  | nil => simp [updateS]
  | cons e r ih =>
    obtain ⟨ek, es⟩ := e
    by_cases hk : k = ek
    · subst hk
      simp [updateS, lookupS, hne]
    · simp [updateS, lookupS, hk]
      by_cases h2 : k2 = ek
      · simp [h2]
      · simp [h2, ih]

theorem lookupS_update_isSome (reg : Registry) (k k2 : Nat) (s : Session)
    (h : (lookupS reg k2).isSome = true) :
    (lookupS (updateS reg k s) k2).isSome = true := by
  by_cases hk : k2 = k
  · subst hk
    obtain ⟨s0, hs0⟩ := Option.isSome_iff_exists.mp h
    rw [lookupS_update_self reg k2 s0 s hs0]
    rfl
  · rw [lookupS_update_ne k2 k s hk reg]
    exact h

/-! SessionState::add lemmas. -/

theorem addData_data (st : Session) (d : List Nat) :
    (addData st d).data = st.data ++ d := by
  unfold addData
  dsimp only
  split <;> rfl

theorem addData_ack (st : Session) (d : List Nat) : (addData st d).ack = st.ack := by
  unfold addData
  dsimp only
  split <;> rfl

theorem addData_addr (st : Session) (d : List Nat) : (addData st d).addr = st.addr := by
  unfold addData
  dsimp only
  split <;> rfl

theorem addData_id (st : Session) (d : List Nat) : (addData st d).id = st.id := by
  unfold addData
  dsimp only
  split <;> rfl

theorem addData_pending (st : Session) (d : List Nat) :
    (addData st d).pending = st.pending := by
  unfold addData
  dsimp only
  split <;> rfl

theorem addData_should_close (st : Session) (d : List Nat) :
    (addData st d).should_close = st.should_close := by
  unfold addData
  dsimp only
  split <;> rfl

theorem addData_outPos (st : Session) (d : List Nat) :
    (addData st d).outPos = st.outPos := by
  unfold addData
  dsimp only
  split <;> rfl

theorem addData_full_lines (st : Session) (d : List Nat) :
    (addData st d).full_lines = countNl (st.data ++ d) := by
  unfold addData
  dsimp only
  split <;> rfl

theorem enumFrom_all_newline (f : List Nat → List Nat) :
    ∀ (L : List (List Nat)) (k m : Nat), k + L.length ≤ m →
    (L.enumFrom k).map (fun p => f p.2 ++ (if p.1 ≠ m then [10] else [])) =
      L.map (fun l => f l ++ [10]) := by
  intro L
  induction L with
  | nil => intro k m _; rfl
  | cons a t ih =>
    intro k m h
    simp only [List.length_cons] at h
    have hk : k ≠ m := by omega
    simp only [List.enumFrom, List.map_cons, hk, ne_eq, not_false_eq_true, if_true]
    rw [ih (k + 1) m (by omega)]

theorem addData_chq (st : Session) (d : List Nat) (hc : st.should_close = false)
    (hf : st.full_lines = countNl st.data) :
    (addData st d).chq = st.chq ++ completedLines st.full_lines (st.data ++ d) := by
  unfold addData completedLines
  dsimp only
  simp only [hc, Bool.false_eq_true, or_false, if_false]
  by_cases hlt : st.full_lines < countNl (st.data ++ d)
  · simp only [hlt, if_true]
    congr 1
    rw [List.enum_eq_enumFrom]
    rw [enumFrom_all_newline (fun l => l.reverse) _ 0 _ (by simp [List.length_take])]
  · simp only [hlt, if_false]
    have heq : st.full_lines = countNl (st.data ++ d) := by
      rw [hf]
      rw [countNl_append] at hlt ⊢
      omega
    have hlen : ((splitNl (st.data ++ d)).drop st.full_lines).length = 1 := by
      simp [List.length_drop, splitNl_length, ← heq]
    rw [hlen]
    simp

/-- Claim C5: an in-sequence-violating DATA frame (pos different from the
    current inbound length) for an open, non-closing session is discarded
    without any state change, and the server replies with an Ack carrying
    the unchanged inbound length (main.rs lines 334-346). -/
theorem C5_theorem (reg : Registry) (addr sid pos : Nat) (d : List Nat) (st : Session)
    (h : lookupS reg sid = some st) (hc : st.should_close = false)
    (hp : pos ≠ st.data.length) :
    handleMsg reg addr (Message.Data sid pos d)
      = (reg, [(st.addr, Message.Ack sid st.data.length)]) := by
  have hp2 : ¬(st.data.length = pos) := fun he => hp he.symm
  simp [handleMsg, h, hc, hp2]

/-- Witness for claim C5 at a concrete out-of-order Data frame. -/
theorem C5_witness :
    handleMsg [(1, ⟨1, 7, [], 0, [], 0, [], false, 0⟩)] 7 (Message.Data 1 50 [97, 98, 99])
      = ([(1, ⟨1, 7, [], 0, [], 0, [], false, 0⟩)], [(7, Message.Ack 1 0)]) :=
  C5_theorem _ 7 1 50 [97, 98, 99] ⟨1, 7, [], 0, [], 0, [], false, 0⟩ (by decide) (by decide) (by decide)

/-- Claim C6: a CONNECT for an already-open session replies Ack(id, 0) and
    leaves the whole registry, hence every field of the session state,
    unchanged (main.rs lines 233-238), so a repeated CONNECT is idempotent. -/
theorem C6_theorem (reg : Registry) (addr sid : Nat) (st : Session)
    (h : lookupS reg sid = some st) :
    handleMsg reg addr (Message.Connect sid) = (reg, [(addr, Message.Ack sid 0)]) := by
  simp [handleMsg, h]

/-- Witness for claim C6 at a concrete repeated CONNECT. -/
theorem C6_witness :
    handleMsg [(1, ⟨1, 7, [104, 105], 0, [], 0, [], false, 0⟩)] 7 (Message.Connect 1)
      = ([(1, ⟨1, 7, [104, 105], 0, [], 0, [], false, 0⟩)], [(7, Message.Ack 1 0)]) :=
  C6_theorem _ 7 1 ⟨1, 7, [104, 105], 0, [], 0, [], false, 0⟩ (by decide)

/-- Claim C8: for a session id absent from the registry, DATA and ACK
    frames are ignored with no reply and no state created, while a CLOSE
    frame is answered with Close(id) without creating state (main.rs lines
    226-231, 347-349, and the missing else branch at 173-202). -/
theorem C8_theorem (reg : Registry) (addr sid pos len : Nat) (d : List Nat)
    (h : lookupS reg sid = none) :
    handleMsg reg addr (Message.Data sid pos d) = (reg, []) ∧
    handleMsg reg addr (Message.Ack sid len) = (reg, []) ∧
    handleMsg reg addr (Message.Close sid) = (reg, [(addr, Message.Close sid)]) := by
  refine ⟨?_, ?_, ?_⟩ <;> simp [handleMsg, h]

/-- Witness for claim C8 on the empty registry. -/
theorem C8_witness :
    handleMsg [] 7 (Message.Data 5 0 [97]) = ([], []) ∧
    handleMsg [] 7 (Message.Ack 5 3) = ([], []) ∧
    handleMsg [] 7 (Message.Close 5) = ([], [(7, Message.Close 5)]) :=
  C8_theorem [] 7 5 0 3 [97] (by decide)

/-- Counterexample to claim C3: after CONNECT(1) and DATA(1, 0, "ab\n")
    the session has sent zero outbound bytes (outPos = 0), so by the claim
    ACK(1, 2) acknowledges more than was ever sent and must force-close
    and remove the session.  Instead the code compares the acknowledged
    length against the received inbound byte count (3), accepts the ack,
    sends nothing, and keeps the session. -/
theorem C3_counterexample :
    (lookupS (runSteps [] c3TracePre).1 1).map (fun st => st.outPos) = some 0 ∧
    step (runSteps [] c3TracePre).1 (Event.recv 7 (Message.Ack 1 2)) =
      ([(1, { id := 1, addr := 7, data := [97, 98, 10], full_lines := 1,
              chq := [[98, 97, 10]], ack := 2, pending := [], should_close := false,
              outPos := 0 })], []) := by
  decide

/-- Claim C3 (amended): on ACK(id, length) for an open session where
    length exceeds both the current outbound ack and the count of received
    inbound bytes (state.data.len(), which the code uses in place of the
    sent-byte count), the server sends Close(id) to the sender but keeps
    the session in the registry unchanged; the id remains known to later
    frames (main.rs lines 197-201, which send Close without removal). -/
theorem C3_theorem (reg : Registry) (addr sid len : Nat) (st : Session)
    (h : lookupS reg sid = some st) (ha : st.ack < len) (hd : st.data.length < len) :
    handleMsg reg addr (Message.Ack sid len) = (reg, [(addr, Message.Close sid)]) := by
  have h1 : ¬ len ≤ st.ack := by omega
  have h2 : ¬ len ≤ st.data.length := by omega
  simp [handleMsg, h, h1, h2]

/-- Witness for the amended claim C3 at a concrete over-acknowledging Ack. -/
theorem C3_witness :
    handleMsg [(1, ⟨1, 7, [104, 105], 0, [], 0, [], false, 0⟩)] 7 (Message.Ack 1 999999)
      = ([(1, ⟨1, 7, [104, 105], 0, [], 0, [], false, 0⟩)], [(7, Message.Close 1)]) :=
  C3_theorem _ 7 1 999999 ⟨1, 7, [104, 105], 0, [], 0, [], false, 0⟩ (by decide) (by decide) (by decide)

/-- Counterexample to claim C4: delivering the in-order payload "hel"
    (no newline) advances the inbound stream to 3 bytes and is acknowledged
    with Ack(1, 3), yet nothing at all is forwarded to the application
    channel (chq stays empty): the newly contiguous bytes are not
    forwarded, only completed lines ever are. -/
theorem C4_counterexample :
    runSteps [] c4Trace =
      ([(1, { id := 1, addr := 7, data := [104, 101, 108], full_lines := 0, chq := [],
              ack := 0, pending := [], should_close := false, outPos := 0 })],
       [(7, Message.Ack 1 0), (7, Message.Ack 1 3)]) := by
  decide

/-- Claim C4 (amended): on DATA(id, pos, data) for an open session with
    should_close false and pos equal to the current inbound length, the
    payload is appended to the inbound stream, the inbound length advances
    by the payload length, and Ack(id, new length) is sent in reply to the
    session's recorded peer address; what is forwarded to the application
    channel is not the raw new bytes but the input lines the new bytes
    complete, each reversed and newline-terminated (bytes after the last
    newline stay buffered until a later newline or close), main.rs lines
    122-158 and 308-333. -/
theorem C4_theorem (reg : Registry) (addr sid : Nat) (st : Session) (d : List Nat)
    (h : lookupS reg sid = some st) (hc : st.should_close = false)
    (hf : st.full_lines = countNl st.data) :
    handleMsg reg addr (Message.Data sid st.data.length d) =
      (updateS reg sid
        { st with
          data := st.data ++ d,
          full_lines := countNl (st.data ++ d),
          chq := st.chq ++ completedLines st.full_lines (st.data ++ d) },
       [(st.addr, Message.Ack sid (st.data.length + d.length))]) := by
  have hrec : addData st d =
      { st with
        data := st.data ++ d,
        full_lines := countNl (st.data ++ d),
        chq := st.chq ++ completedLines st.full_lines (st.data ++ d) } := by
    ext1
    · rw [addData_id]
    · rw [addData_addr]
    · rw [addData_data]
    · rw [addData_full_lines]
    · rw [addData_chq st d hc hf]
    · rw [addData_ack]
    · rw [addData_pending]
    · rw [addData_should_close]
    · rw [addData_outPos]
  simp [handleMsg, h, hc, hrec]

/-- Witness for the amended claim C4: an in-order payload "ab\n" is
    appended, acknowledged with the new length 3, and the single completed
    line is forwarded reversed with its newline. -/
theorem C4_witness :
    handleMsg [(1, ⟨1, 7, [], 0, [], 0, [], false, 0⟩)] 7 (Message.Data 1 0 [97, 98, 10])
      = ([(1, ⟨1, 7, [97, 98, 10], 1, [[98, 97, 10]], 0, [], false, 0⟩)],
         [(7, Message.Ack 1 3)]) := by
  have h := C4_theorem [(1, ⟨1, 7, [], 0, [], 0, [], false, 0⟩)] 7 1
    ⟨1, 7, [], 0, [], 0, [], false, 0⟩ [97, 98, 10] (by decide) (by decide) (by decide)
  simpa using h

/-- Counterexample to claim C2: running connect, one full input line, one
    outbound send, a deferred close and the final ack reaches a state where
    should_close is set and the acknowledged outbound length (2) equals the
    total sent length (outPos = 2), Close(1) has been sent, and yet session
    1 is still present in the registry: the program never removes sessions,
    so the left-to-right direction of the claimed equivalence fails. -/
theorem C2_counterexample :
    runSteps [] c2Trace =
      ([(1, ⟨1, 7, [97, 10], 1, [[]], 2, [], true, 2⟩)],
       [(7, Message.Ack 1 0), (7, Message.Ack 1 2), (7, Message.Data 1 0 [97, 10]),
        (7, Message.Close 1)]) ∧
    (lookupS (runSteps [] c2Trace).1 1).isSome = true := by
  constructor <;> decide

/-- Claim C2 (amended): a session, once created, is never removed from the
    registry: every event of the server (a dispatched frame, an outbound
    task channel consumption, or a retransmission tick) preserves
    membership of every session id.  In particular the claimed removal
    when should_close has fired and all outbound data is acknowledged does
    not happen; in that state the code only sends Close(id) and keeps the
    entry (main.rs lines 191-196, 197-201, 206-214: no remove call
    exists). -/
theorem C2_theorem (reg : Registry) (e : Event) (sid : Nat)
    (h : (lookupS reg sid).isSome = true) :
    (lookupS (step reg e).1 sid).isSome = true := by
  cases e with
  | tick tid =>
    simp only [step, tickStep]
    cases hc : lookupS reg tid <;> simpa using h
  | consume cid =>
    simp only [step, consumeStep]
    cases hc : lookupS reg cid with
    | none => simpa using h
    | some st =>
      cases hq : st.chq with
      | nil => simpa [hq] using h
      | cons d rest =>
        simp only [hq]
        exact lookupS_update_isSome reg cid sid _ h
  | recv addr m =>
    cases m with
    | Connect c =>
      simp only [step, handleMsg]
      cases hc : lookupS reg c with
      | some st => simpa using h
      | none =>
        simp only [insertS, lookupS]
        by_cases hs : sid = c
        · simp [hs]
        · simpa [hs] using h
    | Ack a len =>
      simp only [step, handleMsg]
      cases hc : lookupS reg a with
      | none => simpa using h
      | some st =>
        by_cases h1 : len ≤ st.ack
        · simpa [h1] using h
        · by_cases h2 : len ≤ st.data.length
          · simp only [h1, h2, if_true, if_false]
            exact lookupS_update_isSome reg a sid _ h
          · simpa [h1, h2] using h
    | Close c =>
      simp only [step, handleMsg]
      cases hc : lookupS reg c with
      | none => simpa using h
      | some st =>
        by_cases h1 : st.ack = st.data.length
        · simpa [h1] using h
        · by_cases h2 : st.should_close = true
          · simpa [h1, h2] using h
          · simp only [h1, h2, if_false]
            exact lookupS_update_isSome reg c sid _ h
    | Data c pos d =>
      simp only [step, handleMsg]
      cases hc : lookupS reg c with
      | none => simpa using h
      | some st =>
        by_cases h1 : st.should_close = true
        · simpa [h1] using h
        · by_cases h2 : st.data.length = pos
          · simp only [h1, h2, if_true, if_false]
            exact lookupS_update_isSome reg c sid _ h
          · simpa [h1, h2] using h

/-- Witness for the amended claim C2: the graceful-close Close event for a
    fully acknowledged session keeps the session in the registry. -/
theorem C2_witness :
    (lookupS (step [(1, ⟨1, 7, [], 0, [], 0, [], false, 0⟩)]
      (Event.recv 7 (Message.Close 1))).1 1).isSome = true :=
  C2_theorem [(1, ⟨1, 7, [], 0, [], 0, [], false, 0⟩)] (Event.recv 7 (Message.Close 1)) 1
    (by decide)

/-- Claim C7: processing any frame (CONNECT, DATA, ACK or CLOSE) never
    decreases a session's inbound delivered byte count (state.data.len())
    or its outbound acknowledged count (state.ack): the Ack handler only
    raises ack via max (main.rs line 179) and SessionState::add only
    appends to data (main.rs line 124).  Applied over a whole run this
    gives monotonicity over the session's lifetime. -/
theorem C7_theorem (reg : Registry) (addr : Nat) (m : Message) (sid : Nat)
    (st st2 : Session) (h1 : lookupS reg sid = some st)
    (h2 : lookupS (handleMsg reg addr m).1 sid = some st2) :
    st.data.length ≤ st2.data.length ∧ st.ack ≤ st2.ack := by
  cases m with
  | Connect c =>
    cases hc : lookupS reg c with
    | some s0 =>
      simp only [handleMsg, hc] at h2
      rw [h1] at h2
      injection h2 with h3
      subst h3
      exact ⟨le_refl _, le_refl _⟩
    | none =>
      simp only [handleMsg, hc] at h2
      have hne : sid ≠ c := by
        intro he
        subst he
        rw [h1] at hc
        exact Option.noConfusion hc
      simp only [insertS, lookupS, hne, if_false] at h2
      rw [h1] at h2
      injection h2 with h3
      subst h3
      exact ⟨le_refl _, le_refl _⟩
  | Ack a len =>
    cases hc : lookupS reg a with
    | none =>
      simp only [handleMsg, hc] at h2
      rw [h1] at h2
      injection h2 with h3
      subst h3
      exact ⟨le_refl _, le_refl _⟩
    | some sa =>
      simp only [handleMsg, hc] at h2
      by_cases hb1 : len ≤ sa.ack
      · simp only [hb1, if_true] at h2
        rw [h1] at h2
        injection h2 with h3
        subst h3
        exact ⟨le_refl _, le_refl _⟩
      · by_cases hb2 : len ≤ sa.data.length
        · simp only [hb1, hb2, Bool.false_eq_true, if_true, if_false] at h2
          by_cases hsid : sid = a
          · subst hsid
            rw [h1] at hc
            injection hc with hca
            subst hca
            rw [lookupS_update_self reg sid st _ h1] at h2
            injection h2 with h3
            subst h3
            refine ⟨le_refl _, ?_⟩
            simp only []
            exact le_max_right len st.ack
          · rw [lookupS_update_ne sid a _ hsid reg] at h2
            rw [h1] at h2
            injection h2 with h3
            subst h3
            exact ⟨le_refl _, le_refl _⟩
        · simp only [hb1, hb2, Bool.false_eq_true, if_false] at h2
          rw [h1] at h2
          injection h2 with h3
          subst h3
          exact ⟨le_refl _, le_refl _⟩
  | Close c =>
    cases hc : lookupS reg c with
    | none =>
      simp only [handleMsg, hc] at h2
      rw [h1] at h2
      injection h2 with h3
      subst h3
      exact ⟨le_refl _, le_refl _⟩
    | some sc =>
      simp only [handleMsg, hc] at h2
      by_cases hb1 : sc.ack = sc.data.length
      · simp only [hb1, if_true] at h2
        rw [h1] at h2
        injection h2 with h3
        subst h3
        exact ⟨le_refl _, le_refl _⟩
      · by_cases hb2 : sc.should_close = true
        · simp only [hb1, hb2, Bool.false_eq_true, if_true, if_false] at h2
          rw [h1] at h2
          injection h2 with h3
          subst h3
          exact ⟨le_refl _, le_refl _⟩
        · simp only [hb1, hb2, Bool.false_eq_true, if_false] at h2
          by_cases hsid : sid = c
          · subst hsid
            rw [h1] at hc
            injection hc with hca
            subst hca
            rw [lookupS_update_self reg sid st _ h1] at h2
            injection h2 with h3
            subst h3
            constructor
            · rw [addData_data]
              simp
            · rw [addData_ack]
          · rw [lookupS_update_ne sid c _ hsid reg] at h2
            rw [h1] at h2
            injection h2 with h3
            subst h3
            exact ⟨le_refl _, le_refl _⟩
  | Data c pos d =>
    cases hc : lookupS reg c with
    | none =>
      simp only [handleMsg, hc] at h2
      rw [h1] at h2
      injection h2 with h3
      subst h3
      exact ⟨le_refl _, le_refl _⟩
    | some sc =>
      simp only [handleMsg, hc] at h2
      by_cases hb1 : sc.should_close = true
      · simp only [hb1, if_true] at h2
        rw [h1] at h2
        injection h2 with h3
        subst h3
        exact ⟨le_refl _, le_refl _⟩
      · by_cases hb2 : sc.data.length = pos
        · simp only [hb1, hb2, Bool.false_eq_true, if_true, if_false] at h2
          by_cases hsid : sid = c
          · subst hsid
            rw [h1] at hc
            injection hc with hca
            subst hca
            rw [lookupS_update_self reg sid st _ h1] at h2
            injection h2 with h3
            subst h3
            constructor
            · rw [addData_data]
              simp
            · rw [addData_ack]
          · rw [lookupS_update_ne sid c _ hsid reg] at h2
            rw [h1] at h2
            injection h2 with h3
            subst h3
            exact ⟨le_refl _, le_refl _⟩
        · simp only [hb1, hb2, Bool.false_eq_true, if_false] at h2
          rw [h1] at h2
          injection h2 with h3
          subst h3
          exact ⟨le_refl _, le_refl _⟩

/-- Witness for claim C7: an in-order Data frame advances the inbound
    length from 0 to 3 and leaves ack unchanged. -/
theorem C7_witness :
    (0 : Nat) ≤ 3 ∧ (0 : Nat) ≤ 0 := by
  have h := C7_theorem [(1, ⟨1, 7, [], 0, [], 0, [], false, 0⟩)] 7
    (Message.Data 1 0 [97, 98, 10]) 1 ⟨1, 7, [], 0, [], 0, [], false, 0⟩
    ⟨1, 7, [97, 98, 10], 1, [[98, 97, 10]], 0, [], false, 0⟩ (by decide) (by decide)
  simpa using h

/-! Chunking and datagram-size lemmas for the outbound path. -/

theorem escTok_len (c : Nat) : (escTok c).length ≤ 2 := by
  unfold escTok
  split
  · simp
  · split <;> simp

theorem escape_len (l : List Nat) : (escape l).length ≤ 2 * l.length := by
  induction l with
  | nil => simp [escape, replOne]
  | cons c t ih =>
    rw [escape_cons]
    simp only [List.length_append, List.length_cons]
    have h := escTok_len c
    omega

theorem natToDec_len20 (n : Nat) (h : n < 2 ^ 64) : (natToDec n).length ≤ 20 := by
  unfold natToDec
  by_cases h0 : n = 0
  · simp [h0]
  · simp only [h0, if_false, List.length_map, List.length_reverse]
    refine digLE_len n n 20 (le_refl n) ?_
    calc n < 2 ^ 64 := h
    _ < 10 ^ 20 := by norm_num

theorem serializeData_len (s q : Nat) (c w : List Nat) (hs : s < 2 ^ 64)
    (hq : q < 2 ^ 64) (hc : c.length ≤ 512)
    (hw : serialize (Message.Data s q c) = some w) : w.length ≤ 1073 := by
  simp only [serialize] at hw
  by_cases hu : utf8Valid (escape c) = true
  · rw [if_pos hu] at hw
    injection hw with hw2
    subst hw2
    have h1 := natToDec_len20 s hs
    have h2 := natToDec_len20 q hq
    have h3 := escape_len c
    have h4 : pfxData.length = 6 := rfl
    simp only [List.length_append, List.length_cons, List.length_nil]
    omega
  · rw [if_neg hu] at hw
    exact absurd hw (by simp)

theorem chunks512F_fuel : ∀ (f1 f2 : Nat) (l : List Nat), l.length ≤ f1 →
    l.length ≤ f2 → chunks512F f1 l = chunks512F f2 l := by
  intro f1
  induction f1 with
  | zero =>
    intro f2 l h1 h2
    cases l with
    | nil => cases f2 <;> rfl
    | cons c r => simp at h1
  | succ g ih =>
    intro f2 l h1 h2
    cases l with
    | nil => cases f2 <;> rfl
    | cons c r =>
      cases f2 with
      | zero => simp at h2
      | succ g2 =>
        simp only [chunks512F]
        congr 1
        apply ih
        · simp only [List.length_drop, List.length_cons] at *
          omega
        · simp only [List.length_drop, List.length_cons] at *
          omega

theorem chunks512_eq (l : List Nat) : chunks512 l =
    if l = [] then [] else l.take 512 :: chunks512 (l.drop 512) := by
  cases l with
  | nil => rfl
  | cons c r =>
    have hne : (c :: r) ≠ [] := by simp
    rw [if_neg hne]
    show chunks512F (c :: r).length (c :: r) = _
    simp only [List.length_cons, chunks512F]
    congr 1
    apply chunks512F_fuel
    · simp only [List.length_drop, List.length_cons]
      omega
    · exact le_refl _

theorem dataFrames_length (sid : Nat) : ∀ (pos : Nat) (cs : List (List Nat)),
    (dataFrames sid pos cs).length = cs.length := by
  intro pos cs
  induction cs generalizing pos with
  | nil => rfl
  | cons c t ih => simp [dataFrames, ih]

theorem chunks512_two (l : List Nat) (h : 512 < l.length) :
    2 ≤ (chunks512 l).length := by
  rw [chunks512_eq]
  have hne : l ≠ [] := by
    intro he
    subst he
    simp at h
  rw [if_neg hne]
  rw [chunks512_eq]
  have hne2 : l.drop 512 ≠ [] := by
    intro he
    have := congrArg List.length he
    simp only [List.length_drop, List.length_nil] at this
    omega
  rw [if_neg hne2]
  simp

theorem dataFrames_chunks_mem (sid : Nat) : ∀ (n : Nat) (l : List Nat) (pos : Nat)
    (m : Message), l.length ≤ n → m ∈ dataFrames sid pos (chunks512 l) →
    ∃ i, m = Message.Data sid (pos + 512 * i) ((l.drop (512 * i)).take 512) := by
  intro n
  induction n with
  | zero =>
    intro l pos m hl hm
    have hnil : l = [] := List.length_eq_zero.mp (by omega)
    subst hnil
    rw [chunks512_eq] at hm
    simp [dataFrames] at hm
  | succ k ih =>
    intro l pos m hl hm
    cases l with
    | nil =>
      rw [chunks512_eq] at hm
      simp [dataFrames] at hm
    | cons c r =>
      rw [chunks512_eq] at hm
      have hne : (c :: r) ≠ [] := by simp
      rw [if_neg hne] at hm
      simp only [dataFrames, List.mem_cons] at hm
      rcases hm with hm | hm
      · refine ⟨0, ?_⟩
        simpa using hm
      · by_cases hlen : 512 ≤ (c :: r).length
        · have hdl : ((c :: r).drop 512).length ≤ k := by
            simp only [List.length_drop, List.length_cons]
            simp only [List.length_cons] at hl
            omega
          obtain ⟨i, hi⟩ := ih ((c :: r).drop 512) (pos + ((c :: r).take 512).length) m hdl hm
          have htk : ((c :: r).take 512).length = 512 := by
            rw [List.length_take]
            omega
          refine ⟨i + 1, ?_⟩
          rw [hi, htk]
          rw [List.drop_drop]
          have e1 : pos + 512 + 512 * i = pos + 512 * (i + 1) := by ring
          have e2 : 512 + 512 * i = 512 * (i + 1) := by ring
          rw [e1, e2]
        · have hdrop : (c :: r).drop 512 = [] := List.drop_eq_nil_of_le (by omega)
          rw [hdrop] at hm
          rw [chunks512_eq] at hm
          simp [dataFrames] at hm

set_option maxRecDepth 100000 in
/-- Counterexample to claim C9: a single 512-byte chunk consisting of
    backslashes escapes to 1024 bytes, and the serialized frame
    /data/1/0/.../ is 1035 bytes long, exceeding the claimed 1000-byte
    bound on emitted datagrams. -/
theorem C9_counterexample :
    (serialize (Message.Data 1 0 (List.replicate 512 92))).map List.length = some 1035 ∧
    1000 < 1035 := by
  refine ⟨?_, by norm_num⟩
  decide

/-- Claim C9 (amended): one outbound channel consumption splits the queued
    byte sequence into consecutive 512-byte chunks, emitting one Data frame
    per chunk to the session's peer address; a sequence longer than 512
    bytes yields at least two frames; the i-th frame carries the absolute
    position outPos + 512 * i and the corresponding at-most-512-byte slice;
    and any emitted frame that serializes (with u64-representable fields)
    occupies at most 1073 wire bytes: 6 framing bytes plus up to 20 + 20
    digits, 3 slashes and 1024 escaped payload bytes.  The original
    1000-byte bound does not hold: heavy escaping reaches 1035 bytes even
    for session 1 at position 0 (main.rs lines 273-287 and 93-98). -/
theorem C9_theorem (reg : Registry) (sid : Nat) (st : Session) (d : List Nat)
    (rest : List (List Nat)) (h : lookupS reg sid = some st) (hq : st.chq = d :: rest) :
    (consumeStep reg sid).2.length = (chunks512 d).length ∧
    (512 < d.length → 2 ≤ (consumeStep reg sid).2.length) ∧
    (∀ p ∈ (consumeStep reg sid).2, p.1 = st.addr ∧
      ∃ i, p.2 = Message.Data sid (st.outPos + 512 * i) ((d.drop (512 * i)).take 512) ∧
        ((d.drop (512 * i)).take 512).length ≤ 512) ∧
    (∀ p ∈ (consumeStep reg sid).2, ∀ s2 q2 c2, p.2 = Message.Data s2 q2 c2 →
      s2 < 2 ^ 64 → q2 < 2 ^ 64 → ∀ w, serialize p.2 = some w → w.length ≤ 1073) := by
  have hout : (consumeStep reg sid).2
      = (dataFrames sid st.outPos (chunks512 d)).map (fun m => (st.addr, m)) := by
    simp [consumeStep, h, hq]
  rw [hout]
  refine ⟨?_, ?_, ?_, ?_⟩
  · simp [List.length_map, dataFrames_length]
  · intro hgt
    rw [List.length_map, dataFrames_length]
    exact chunks512_two d hgt
  · intro p hp
    rw [List.mem_map] at hp
    obtain ⟨m, hm, rfl⟩ := hp
    refine ⟨rfl, ?_⟩
    obtain ⟨i, hi⟩ := dataFrames_chunks_mem sid d.length d st.outPos m (le_refl _) hm
    refine ⟨i, hi, ?_⟩
    rw [List.length_take]
    exact Nat.min_le_left _ _
  · intro p hp s2 q2 c2 hpm hs2 hq2 w hw
    rw [List.mem_map] at hp
    obtain ⟨m, hm, rfl⟩ := hp
    obtain ⟨i, hi⟩ := dataFrames_chunks_mem sid d.length d st.outPos m (le_refl _) hm
    simp only at hpm hw
    rw [hpm] at hi hw
    injection hi with e1 e2 e3
    refine serializeData_len s2 q2 c2 w hs2 hq2 ?_ hw
    rw [e3, List.length_take]
    exact Nat.min_le_left _ _

/-- Witness for the amended claim C9: consuming the one-byte chunk "a"
    emits exactly as many frames as there are 512-byte chunks, namely
    one. -/
theorem C9_witness :
    (consumeStep [(1, ⟨1, 7, [], 0, [[97]], 0, [], false, 0⟩)] 1).2.length
      = (chunks512 [97]).length :=
  (C9_theorem _ 1 ⟨1, 7, [], 0, [[97]], 0, [], false, 0⟩ [97] [] (by decide) rfl).1

/-- Claim C10: Message::serialize is total on Connect, Ack and Close
    frames for every field value, while on Data frames it is partial: it
    returns an error exactly when the escaped payload is not valid UTF-8
    (the ? on std::str::from_utf8 inside format!, main.rs line 96). -/
theorem C10_theorem :
    (∀ n, (serialize (Message.Connect n)).isSome = true) ∧
    (∀ s l, (serialize (Message.Ack s l)).isSome = true) ∧
    (∀ s, (serialize (Message.Close s)).isSome = true) ∧
    (∀ s p d, utf8Valid (escape d) = false → serialize (Message.Data s p d) = none) ∧
    (∀ s p d, utf8Valid (escape d) = true → (serialize (Message.Data s p d)).isSome = true) := by
  refine ⟨fun n => rfl, fun s l => rfl, fun s => rfl, ?_, ?_⟩
  · intro s p d hu
    simp [serialize, hu]
  · intro s p d hu
    simp [serialize, hu]

/-- Witness for claim C10: the one-byte payload 0xFF is not valid UTF-8
    after escaping, and serializing that Data frame fails. -/
theorem C10_witness :
    utf8Valid (escape [255]) = false ∧ serialize (Message.Data 0 0 [255]) = none :=
  ⟨by decide, C10_theorem.2.2.2.1 0 0 [255] (by decide)⟩
